import Mathlib

/-!
# Verification of the resume section-rewrite core (src/resume.py)

A shallow embedding of the document-surgery core of `src/resume.py`:

* `clean_bullets` (lines 38–65): normalisation of raw model output into a
  capped list of bullet strings;
* the bullet fallback of `generate_bullet_points` (lines 88–98);
* `replace_first_project_safely` (lines 104–178), split into its locate
  phase (lines 129–162), its delete phase (lines 164–166) and its insert
  phase (lines 168–176).

Documents are modelled as ordered lists of `Block`s (python-docx
paragraphs); a `Block` carries its runs and the formatting attributes the
source reads or writes.  Lengths (font sizes, indents, spacing) are kept in
EMU as exact rationals, as python-docx's `Pt`/`Inches` produce.
-/

set_option autoImplicit false

namespace Resume

/-! ## Strings: the Python primitives the source uses -/

/-- Python `str.strip()` / `str.isspace()` whitespace test, on the ASCII
whitespace the documents at hand use. -/
def isPyWS (c : Char) : Bool := c.isWhitespace

/-- Python `str.strip()` on a character list: drop leading and trailing
whitespace. -/
def trimCh (l : List Char) : List Char :=
  ((l.dropWhile isPyWS).reverse.dropWhile isPyWS).reverse

/-- Python `str.strip()`. -/
def pyStrip (s : String) : String := ⟨trimCh s.data⟩

/-- Python `str.upper()` (ASCII case mapping, which is all the source's
heading comparison needs). -/
def pyUpper (s : String) : String := ⟨s.data.map Char.toUpper⟩

/-- Python `needle in hay` on strings: substring containment. -/
def containsSub (needle hay : List Char) : Bool :=
  hay.tails.any fun t => needle.isPrefixOf t

/-- Python `str.splitlines()`: split at newline characters.  (Lines are
stripped immediately afterwards by every caller, so the exact treatment of
`\r` is immaterial.) -/
def splitLinesCh : List Char → List (List Char)
  | [] => [[]]
  | c :: rest =>
    if c = '\n' then [] :: splitLinesCh rest
    else
      match splitLinesCh rest with
      | [] => [[c]]
      | l :: ls => (c :: l) :: ls

/-! ## Data model: runs and blocks (python-docx paragraphs) -/

/-- `WD_PARAGRAPH_ALIGNMENT` values the source uses. -/
inductive WdAlignment where
  | left
  | center
  | right
  | justify
deriving DecidableEq, Repr

/-- One EMU length per point: `Pt(x)` in python-docx. -/
def Pt (x : ℚ) : ℚ := x * 12700

/-- One EMU length per inch: `Inches(x)` in python-docx. -/
def Inches (x : ℚ) : ℚ := x * 914400

/-- A run inside a paragraph: its text, its (tri-state) bold flag and its
font size.  `bold = none` means "inherit", which Python's truthiness test
`run.bold` treats as false. -/
structure Run where
  text : String
  bold : Option Bool
  fontSize : Option ℚ
deriving DecidableEq, Repr

/-- A paragraph-equivalent block: its runs plus the paragraph formatting
attributes `replace_first_project_safely` writes. -/
structure Block where
  runs : List Run
  alignment : Option WdAlignment
  leftIndent : Option ℚ
  firstLineIndent : Option ℚ
  spaceBefore : Option ℚ
  spaceAfter : Option ℚ
deriving DecidableEq, Repr

/-- python-docx `paragraph.text`: the concatenation of the runs' texts. -/
def Block.text (b : Block) : String :=
  ⟨(b.runs.map fun r => r.text.data).flatten⟩

/-- A block with a single unformatted run, as found in an uploaded
document. -/
def plainBlock (t : String) : Block :=
  { runs := [{ text := t, bold := none, fontSize := none }]
    alignment := none, leftIndent := none, firstLineIndent := none
    spaceBefore := none, spaceAfter := none }

/-- A block with a single explicitly bold run, as found in an uploaded
document. -/
def boldBlock (t : String) : Block :=
  { runs := [{ text := t, bold := some true, fontSize := none }]
    alignment := none, leftIndent := none, firstLineIndent := none
    spaceBefore := none, spaceAfter := none }

/-- A block with no runs at all (an empty paragraph). -/
def emptyBlock : Block :=
  { runs := []
    alignment := none, leftIndent := none, firstLineIndent := none
    spaceBefore := none, spaceAfter := none }

/-- Line 146: `para.runs and para.runs[0].bold` — the record-boundary
test: the paragraph has a run and its first run's bold flag is truthy. -/
def hasBoldFirstRun (b : Block) : Bool :=
  match b.runs with
  | [] => false
  | r :: _ => match r.bold with
    | some true => true
    | _ => false

/-- Line 135: `"PROJECT EXPERIENCE" in para.text.upper()`. -/
def headingIn (b : Block) : Bool :=
  containsSub ("PROJECT EXPERIENCE").data (pyUpper b.text).data

/-! ## Bullet cleanup: `clean_bullets` (lines 38–65) -/

/-- Lines 57–58: strip a leading enumerator `<digit>. ` or `<digit>) `
(when the line has length at least 3), then strip whitespace. -/
def stripEnum (l : List Char) : List Char :=
  match l with
  | c1 :: c2 :: c3 :: rest =>
    if c1.isDigit && (c2 = '.' || c2 = ')') && c3 = ' ' then trimCh rest
    else l
  | _ => l

/-- Lines 54–58, applied to an already-stripped line `ln`:
`ln.lstrip("•").lstrip("-").strip()` followed by the enumerator strip. -/
def cleanLineCh (ln : List Char) : List Char :=
  stripEnum (trimCh ((ln.dropWhile fun c => c = '•').dropWhile fun c => c = '-'))

/-- Lines 38–65: `clean_bullets`.  Split into lines, strip them, drop the
empty ones, clean each line's bullet markers, keep the non-empty results,
and truncate to at most 3 entries. -/
def clean_bullets (text : String) : List String :=
  if text = "" then []
  else
    let lines := ((splitLinesCh text.data).map trimCh).filter fun l => !l.isEmpty
    let bullets := (lines.map cleanLineCh).filter fun l => !l.isEmpty
    (bullets.take 3).map fun l => (⟨l⟩ : String)

/-- The composite per-line transform of `clean_bullets`: what one raw line
contributes once stripped and cleaned. -/
def cleanedLine (s : String) : String := ⟨cleanLineCh (trimCh s.data)⟩

/-! ## Bullet fallback: `generate_bullet_points` post-processing
(lines 88–98) -/

/-- Lines 93–96: the fixed pair of generic fallback bullets. -/
def fallbackBullets : List String :=
  [("Built an end-to-end project deliverable from requirements through validation, emphasizing clarity and measurable impact."),
   ("Implemented reliable data processing and analysis workflow with clean documentation and reproducibility.")]

/-- Lines 88–98, after the model call: clean the raw text and, if fewer
than 2 bullets remain, substitute the fallback pair (the source applies a
redundant `[:3]` to it). -/
def bulletPipeline (raw : String) : List String :=
  let bullets := clean_bullets raw
  if bullets.length < 2 then fallbackBullets.take 3 else bullets

/-! ## Locate phase of `replace_first_project_safely` (lines 129–162) -/

/-- The two `ValueError`s the locate phase can raise
(lines 150–153). -/
inductive LocateError where
  | sectionNotFound
  | recordNotFound
deriving DecidableEq, Repr

/-- The exact message each `ValueError` carries. -/
def LocateError.message : LocateError → String
  | .sectionNotFound => "Could not find 'PROJECT EXPERIENCE' section in the document."
  | .recordNotFound => "Found 'PROJECT EXPERIENCE' but couldn't locate first project entry below it."

/-- Lines 134–148: the scan loop.  State: current index, `section_found`,
`start_idx` (as an `Option`).  Returns `(section_found, start_idx, end_idx)`;
a `some` third component means the loop broke at a boundary marker. -/
def scanLoop : List Block → Nat → Bool → Option Nat → Bool × Option Nat × Option Nat
  | [], _, found, start => (found, start, none)
  | b :: rest, i, found, start =>
    if headingIn b then
      scanLoop rest (i + 1) true start
    else if found && start.isNone && !(pyStrip b.text == "") then
      scanLoop rest (i + 1) found (some i)
    else if found && start.isSome && hasBoldFirstRun b then
      (found, start, some i)
    else
      scanLoop rest (i + 1) found start

/-- Lines 155–162: the `end_idx == -1` fallback — the first blank-text
block strictly after `start`, else the length of the sequence. -/
def fallbackEnd (blocks : List Block) (s : Nat) : Nat :=
  match (List.range' (s + 1) (blocks.length - (s + 1))).find?
      (fun j => match blocks[j]? with
        | some b => pyStrip b.text == ""
        | none => false) with
  | some j => j
  | none => blocks.length

/-- Lines 129–162: the whole locate phase, as the spec's
`locate(blocks) -> (start, end) | NotFound` contract. -/
def locate (blocks : List Block) : Except LocateError (Nat × Nat) :=
  match scanLoop blocks 0 false none with
  | (false, _, _) => .error .sectionNotFound
  | (true, none, _) => .error .recordNotFound
  | (true, some s, some e) => .ok (s, e)
  | (true, some s, none) => .ok (s, fallbackEnd blocks s)

instance : DecidableEq (Except LocateError (Nat × Nat)) := fun a b =>
  match a, b with
  | .ok x, .ok y =>
    if h : x = y then .isTrue (by rw [h]) else .isFalse (by simp [h])
  | .error x, .error y =>
    if h : x = y then .isTrue (by rw [h]) else .isFalse (by simp [h])
  | .ok _, .error _ => .isFalse (by simp)
  | .error _, .ok _ => .isFalse (by simp)

/-! ## Rewrite phase of `replace_first_project_safely` (lines 127,
164–176) -/

/-- Line 127: `[bp.strip() for bp in new_bullets if bp and bp.strip()]`. -/
def cleanNewBullets (bullets : List String) : List String :=
  bullets.filterMap fun bp =>
    if bp = "" then none
    else if pyStrip bp = "" then none
    else some (pyStrip bp)

/-- Lines 164–166: `for idx in reversed(range(start_idx, end_idx)):
delete_paragraph(doc.paragraphs[idx])`. -/
def deleteRange (blocks : List Block) (s e : Nat) : List Block :=
  (List.range' s (e - s)).reverse.foldl (fun bs idx => bs.eraseIdx idx) blocks

/-- Lines 110–116: the title block built by `format_title` on a fresh
empty paragraph. -/
def mkTitleBlock (t : String) : Block :=
  { runs := [{ text := t, bold := some true, fontSize := some (Pt 12) }]
    alignment := some .left
    leftIndent := none, firstLineIndent := none
    spaceBefore := some (Pt 0), spaceAfter := some (Pt 0) }

/-- Lines 118–125: the bullet block built by `format_bullet` on a fresh
empty paragraph. -/
def mkBulletBlock (t : String) : Block :=
  { runs := [{ text := "• " ++ t, bold := none, fontSize := some (Pt (10.5 : ℚ)) }]
    alignment := some .left
    leftIndent := some (Inches (0.25 : ℚ))
    firstLineIndent := some (Inches (-(0.15 : ℚ)))
    spaceBefore := some (Pt 0), spaceAfter := some (Pt 0) }

/-- `doc.paragraphs[i].insert_paragraph_before(...)`: indexing raises
`IndexError` when `i` is out of range, otherwise the new block lands at
position `i`. -/
def insertAt (bs : List Block) (i : Nat) (b : Block) : Option (List Block) :=
  if i < bs.length then some (bs.take i ++ b :: bs.drop i) else none

/-- Lines 168–176: insert the bullets in reverse order before position
`insert_idx = s`, then the title; the first out-of-range index aborts the
loop as Python's `IndexError` would. -/
def insertRecord (bs : List Block) (i : Nat) (title : String)
    (cleaned : List String) : Option (List Block) :=
  (cleaned.reverse.foldlM (fun acc bullet => insertAt acc i (mkBulletBlock bullet)) bs).bind
    fun acc => insertAt acc i (mkTitleBlock title)

/-- Lines 127 and 164–176: the whole rewrite phase, as the spec's
`rewrite(blocks, start, end, title, bullets)` contract.  `none` models an
uncaught `IndexError`. -/
def rewriteOp (blocks : List Block) (s e : Nat) (title : String)
    (bullets : List String) : Option (List Block) :=
  insertRecord (deleteRange blocks s e) s title (cleanNewBullets bullets)

/-- The state of the block sequence at the moment the rewrite phase
terminates — normally with the inserted record, or, when insertion raises,
with the old record already deleted and nothing inserted (the delete loop
of lines 164–166 runs before the insert loop of lines 168–176). -/
def docAfterRewrite (blocks : List Block) (s e : Nat) (title : String)
    (bullets : List String) : List Block :=
  match rewriteOp blocks s e title bullets with
  | some out => out
  | none => deleteRange blocks s e

/-- Lines 104–178: `replace_first_project_safely` end to end — locate,
then rewrite; a locate failure raises before anything is touched. -/
def replace_first_project_safely (blocks : List Block) (title : String)
    (bullets : List String) : Option (List Block) :=
  match locate blocks with
  | .error _ => none
  | .ok (s, e) => rewriteOp blocks s e title bullets

/-- The state of the block sequence at the moment
`replace_first_project_safely` terminates: a locate failure (lines
150–153) raises before the delete loop, so the document is untouched
there; an insertion failure leaves the deletion behind. -/
def docAfter (blocks : List Block) (title : String)
    (bullets : List String) : List Block :=
  match locate blocks with
  | .error _ => blocks
  | .ok (s, e) => docAfterRewrite blocks s e title bullets

/-! ## Lemmas about the delete and insert phases -/

/-- Deleting the indices of `[s, s+n)` from highest to lowest, as the
source's reversed loop does, removes exactly that span. -/
theorem deleteRange_eq_aux : ∀ (n : Nat) (blocks : List Block) (s : Nat),
    s + n ≤ blocks.length →
    deleteRange blocks s (s + n) = blocks.take s ++ blocks.drop (s + n) := by
  intro n
  induction n with
  | zero =>
    intro blocks s _
    simp [deleteRange, List.take_append_drop]
  | succ n ih =>
    intro blocks s h
    have hassoc : s + (n + 1) = s + n + 1 := by omega
    rw [hassoc] at h ⊢
    have hrange : (s + n + 1) - s = n + 1 := by omega
    have hrange' : (s + n) - s = n := by omega
    have hlt : s + n < blocks.length := by omega
    have herase : blocks.eraseIdx (s + n)
        = blocks.take (s + n) ++ blocks.drop (s + n + 1) :=
      List.eraseIdx_eq_take_drop_succ blocks (s + n)
    have hlen_take : (blocks.take (s + n)).length = s + n :=
      List.length_take_of_le (by omega)
    have hstep : deleteRange blocks s (s + n + 1)
        = deleteRange (blocks.eraseIdx (s + n)) s (s + n) := by
      simp only [deleteRange, hrange, hrange', List.range'_1_concat,
        List.reverse_append, List.reverse_cons, List.reverse_nil,
        List.nil_append, List.singleton_append, List.foldl_cons]
    rw [hstep, ih (blocks.eraseIdx (s + n)) s (by rw [herase]; simp; omega)]
    rw [herase]
    have htake : (blocks.take (s + n) ++ blocks.drop (s + n + 1)).take s
        = blocks.take s := by
      rw [List.take_append_eq_append_take]
      have h1 : s - (blocks.take (s + n)).length = 0 := by omega
      rw [h1, List.take_zero, List.append_nil, List.take_take]
      congr 1
      omega
    have hdrop : (blocks.take (s + n) ++ blocks.drop (s + n + 1)).drop (s + n)
        = blocks.drop (s + n + 1) :=
      List.drop_left' hlen_take
    rw [htake, hdrop]

/-- The delete phase removes exactly the blocks of `[s, e)` when the range
is within bounds. -/
theorem deleteRange_eq (blocks : List Block) (s e : Nat) (h1 : s ≤ e)
    (h2 : e ≤ blocks.length) :
    deleteRange blocks s e = blocks.take s ++ blocks.drop e := by
  have he : e = s + (e - s) := by omega
  rw [he] at h2 ⊢
  exact deleteRange_eq_aux (e - s) blocks s h2

/-- The insert loop over an in-range index: each insertion lands before
the previously inserted block, so a list folded in reverse comes out in
order at position `i`. -/
theorem insertLoop_eq : ∀ (m : List String) (bs : List Block) (i : Nat),
    i < bs.length →
    m.foldlM (fun acc bullet => insertAt acc i (mkBulletBlock bullet)) bs
      = some (bs.take i ++ (m.reverse.map mkBulletBlock ++ bs.drop i)) := by
  intro m
  induction m with
  | nil =>
    intro bs i _
    simp [List.foldlM, List.take_append_drop]
  | cons a m' ih =>
    intro bs i h
    have hlen_take : (bs.take i).length = i := List.length_take_of_le (by omega)
    have hins : insertAt bs i (mkBulletBlock a)
        = some (bs.take i ++ mkBulletBlock a :: bs.drop i) := by
      simp [insertAt, h]
    have hlen1 : i < (bs.take i ++ mkBulletBlock a :: bs.drop i).length := by
      simp [hlen_take]
    rw [List.foldlM_cons, hins]
    simp only [Option.bind_eq_bind, Option.some_bind]
    rw [ih _ i hlen1]
    have htake : (bs.take i ++ mkBulletBlock a :: bs.drop i).take i
        = bs.take i := List.take_left' hlen_take
    have hdrop : (bs.take i ++ mkBulletBlock a :: bs.drop i).drop i
        = mkBulletBlock a :: bs.drop i := List.drop_left' hlen_take
    rw [htake, hdrop]
    simp [List.reverse_cons]

/-- The insert phase on an in-range index: title first, then the cleaned
bullets in their given order, all at position `i`. -/
theorem insertRecord_eq (bs : List Block) (i : Nat) (t : String)
    (cl : List String) (h : i < bs.length) :
    insertRecord bs i t cl
      = some (bs.take i ++ mkTitleBlock t :: (cl.map mkBulletBlock ++ bs.drop i)) := by
  have hlen_take : (bs.take i).length = i := List.length_take_of_le (by omega)
  rw [insertRecord, insertLoop_eq cl.reverse bs i h]
  simp only [List.reverse_reverse, Option.some_bind]
  have hlen1 : i < (bs.take i ++ (cl.map mkBulletBlock ++ bs.drop i)).length := by
    simp [hlen_take]
    omega
  have htake : (bs.take i ++ (cl.map mkBulletBlock ++ bs.drop i)).take i
      = bs.take i := List.take_left' hlen_take
  have hdrop : (bs.take i ++ (cl.map mkBulletBlock ++ bs.drop i)).drop i
      = cl.map mkBulletBlock ++ bs.drop i := List.drop_left' hlen_take
  unfold insertAt
  rw [if_pos hlen1, htake, hdrop]

/-- The insert phase on an out-of-range index fails at its very first
insertion: nothing is inserted. -/
theorem insertRecord_none (bs : List Block) (i : Nat) (t : String)
    (cl : List String) (h : bs.length ≤ i) :
    insertRecord bs i t cl = none := by
  have hfail : ∀ b, insertAt bs i b = none := by
    intro b
    simp [insertAt]
    omega
  rw [insertRecord]
  cases hrev : cl.reverse with
  | nil => simp [hrev, List.foldlM, hfail]
  | cons a m' => simp [hrev, List.foldlM_cons, hfail]

/-- The rewrite phase on a valid range that stops short of the end of the
document: the old span is removed and the fresh record sits at `s`. -/
theorem rewriteOp_eq (blocks : List Block) (s e : Nat) (t : String)
    (bl : List String) (h1 : s ≤ e) (h2 : e < blocks.length) :
    rewriteOp blocks s e t bl
      = some (blocks.take s ++ mkTitleBlock t ::
          ((cleanNewBullets bl).map mkBulletBlock ++ blocks.drop e)) := by
  have hdel : deleteRange blocks s e = blocks.take s ++ blocks.drop e :=
    deleteRange_eq blocks s e h1 (by omega)
  have hlen_take : (blocks.take s).length = s := List.length_take_of_le (by omega)
  have hlen : s < (blocks.take s ++ blocks.drop e).length := by
    simp [hlen_take]
    omega
  rw [rewriteOp, hdel, insertRecord_eq _ s t _ hlen]
  rw [List.take_left' hlen_take, List.drop_left' hlen_take]

/-! ## Lemmas about the locate scan loop -/

/-- A scan that does not break continues through an appended suffix with
the state it reached. -/
theorem scanLoop_append_of_no_break : ∀ (xs ys : List Block) (i : Nat) (f : Bool)
    (st : Option Nat) (f1 : Bool) (st1 : Option Nat),
    scanLoop xs i f st = (f1, st1, none) →
    scanLoop (xs ++ ys) i f st = scanLoop ys (i + xs.length) f1 st1 := by
  intro xs
  induction xs with
  | nil =>
    intro ys i f st f1 st1 h
    simp only [scanLoop, Prod.mk.injEq] at h
    simp [h.1, h.2.1]
  | cons b xs ih =>
    intro ys i f st f1 st1 h
    rw [List.cons_append]
    simp only [scanLoop, List.length_cons] at h ⊢
    have hidx : i + (xs.length + 1) = (i + 1) + xs.length := by omega
    by_cases hb : headingIn b = true
    · rw [if_pos hb] at h ⊢
      rw [hidx]
      exact ih ys (i + 1) true st f1 st1 h
    · rw [if_neg hb] at h ⊢
      by_cases h2 : (f && st.isNone && !(pyStrip b.text == "")) = true
      · rw [if_pos h2] at h ⊢
        rw [hidx]
        exact ih ys (i + 1) f (some i) f1 st1 h
      · rw [if_neg h2] at h ⊢
        by_cases h3 : (f && st.isSome && hasBoldFirstRun b) = true
        · rw [if_pos h3] at h
          simp at h
        · rw [if_neg h3] at h ⊢
          rw [hidx]
          exact ih ys (i + 1) f st f1 st1 h

/-- While the heading has not been seen, the scan changes nothing. -/
theorem scanLoop_noHeading : ∀ (xs : List Block) (i : Nat) (st : Option Nat),
    (∀ b ∈ xs, headingIn b = false) →
    scanLoop xs i false st = (false, st, none) := by
  intro xs
  induction xs with
  | nil => intro i st _; simp [scanLoop]
  | cons b xs ih =>
    intro i st h
    have hb : headingIn b = false := h b (by simp)
    simp only [scanLoop]
    rw [if_neg (by simp [hb]), if_neg (by simp), if_neg (by simp)]
    exact ih (i + 1) st fun b hb => h b (by simp [hb])

/-- After the heading, blocks whose stripped text is empty never set
`start_idx`. -/
theorem scanLoop_allBlank : ∀ (xs : List Block) (i : Nat),
    (∀ b ∈ xs, pyStrip b.text = "") →
    scanLoop xs i true none = (true, none, none) := by
  intro xs
  induction xs with
  | nil => intro i _; simp [scanLoop]
  | cons b xs ih =>
    intro i h
    have hblank : pyStrip b.text = "" := h b (by simp)
    have ih' := ih (i + 1) fun b hb => h b (by simp [hb])
    simp only [scanLoop]
    by_cases hb : headingIn b = true
    · rw [if_pos hb]
      exact ih'
    · rw [if_neg hb, if_neg (by simp [hblank]), if_neg (by simp)]
      exact ih'

/-- Once `start_idx` is set it is never overwritten. -/
theorem scanLoop_start_persist : ∀ (xs : List Block) (i : Nat) (f : Bool) (s0 : Nat)
    (f1 : Bool) (st1 : Option Nat) (e1 : Option Nat),
    scanLoop xs i f (some s0) = (f1, st1, e1) → st1 = some s0 := by
  intro xs
  induction xs with
  | nil =>
    intro i f s0 f1 st1 e1 h
    simp only [scanLoop, Prod.mk.injEq] at h
    exact h.2.1.symm
  | cons b xs ih =>
    intro i f s0 f1 st1 e1 h
    simp only [scanLoop] at h
    by_cases hb : headingIn b = true
    · rw [if_pos hb] at h
      exact ih _ _ _ _ _ _ h
    · rw [if_neg hb, if_neg (by simp)] at h
      by_cases h3 : (f && (some s0).isSome && hasBoldFirstRun b) = true
      · rw [if_pos h3] at h
        simp only [Prod.mk.injEq] at h
        exact h.2.1.symm
      · rw [if_neg h3] at h
        exact ih _ _ _ _ _ _ h

/-- When the scan starts with `start_idx` unset and reports `start_idx = s`,
then `s` is the index of an actual block of the scanned list. -/
theorem scanLoop_start_range : ∀ (xs : List Block) (i : Nat) (f : Bool)
    (f1 : Bool) (s : Nat) (e1 : Option Nat),
    scanLoop xs i f none = (f1, some s, e1) → i ≤ s ∧ s < i + xs.length := by
  intro xs
  induction xs with
  | nil =>
    intro i f f1 s e1 h
    simp only [scanLoop, Prod.mk.injEq] at h
    exact absurd h.2.1 (by simp)
  | cons b xs ih =>
    intro i f f1 s e1 h
    simp only [scanLoop, List.length_cons] at h ⊢
    by_cases hb : headingIn b = true
    · rw [if_pos hb] at h
      have := ih (i + 1) true f1 s e1 h
      omega
    · rw [if_neg hb] at h
      by_cases h2 : (f && (none : Option Nat).isNone && !(pyStrip b.text == "")) = true
      · rw [if_pos h2] at h
        have hpersist : some s = some i :=
          scanLoop_start_persist xs (i + 1) f i f1 (some s) e1 h
        have hs : s = i := by injection hpersist
        omega
      · rw [if_neg h2, if_neg (by simp)] at h
        have := ih (i + 1) f f1 s e1 h
        omega

/-- When the scan breaks at `end_idx = e`, the block at index `e` of the
scanned list is a boundary marker (bold first run), and — when the scan
started with `start_idx` unset — the reported `start_idx` lies strictly
before `e`. -/
theorem scanLoop_break : ∀ (xs : List Block) (i : Nat) (f : Bool) (st : Option Nat)
    (f1 : Bool) (st1 : Option Nat) (e : Nat),
    scanLoop xs i f st = (f1, st1, some e) →
    i ≤ e ∧ (∃ b, xs[e - i]? = some b ∧ hasBoldFirstRun b = true) ∧
      (st = none → ∃ s, st1 = some s ∧ s < e) := by
  intro xs
  induction xs with
  | nil =>
    intro i f st f1 st1 e h
    simp only [scanLoop, Prod.mk.injEq] at h
    exact absurd h.2.2 (by simp)
  | cons b xs ih =>
    intro i f st f1 st1 e h
    simp only [scanLoop] at h
    by_cases hb : headingIn b = true
    · rw [if_pos hb] at h
      obtain ⟨h1, ⟨bb, hget, hbold⟩, hst⟩ := ih (i + 1) true st f1 st1 e h
      refine ⟨by omega, ⟨bb, ?_, hbold⟩, hst⟩
      have : e - i = (e - (i + 1)) + 1 := by omega
      rw [this, List.getElem?_cons_succ]
      exact hget
    · rw [if_neg hb] at h
      by_cases h2 : (f && st.isNone && !(pyStrip b.text == "")) = true
      · rw [if_pos h2] at h
        obtain ⟨h1, ⟨bb, hget, hbold⟩, _⟩ := ih (i + 1) f (some i) f1 st1 e h
        refine ⟨by omega, ⟨bb, ?_, hbold⟩, ?_⟩
        · have : e - i = (e - (i + 1)) + 1 := by omega
          rw [this, List.getElem?_cons_succ]
          exact hget
        · intro _
          have hpersist : st1 = some i :=
            scanLoop_start_persist xs (i + 1) f i f1 st1 (some e) h
          exact ⟨i, hpersist, by omega⟩
      · rw [if_neg h2] at h
        by_cases h3 : (f && st.isSome && hasBoldFirstRun b) = true
        · rw [if_pos h3] at h
          simp only [Prod.mk.injEq] at h
          obtain ⟨hf, hst, he⟩ := h
          have he' : e = i := by injection he with he'; omega
          subst he'
          refine ⟨Nat.le_refl e, ⟨b, ?_, ?_⟩, ?_⟩
          · simp
          · simp only [Bool.and_eq_true] at h3
            exact h3.2
          · intro hnone
            rw [hnone] at h3
            simp at h3
        · rw [if_neg h3] at h
          obtain ⟨h1, ⟨bb, hget, hbold⟩, hst⟩ := ih (i + 1) f st f1 st1 e h
          refine ⟨by omega, ⟨bb, ?_, hbold⟩, hst⟩
          have : e - i = (e - (i + 1)) + 1 := by omega
          rw [this, List.getElem?_cons_succ]
          exact hget

/-- The fallback scan for `end_idx` returns the sequence length when no
block after `start` has blank stripped text. -/
theorem fallbackEnd_eq_length (blocks : List Block) (s : Nat)
    (h : ∀ j, s < j → ∀ b, blocks[j]? = some b → pyStrip b.text ≠ "") :
    fallbackEnd blocks s = blocks.length := by
  rw [fallbackEnd]
  rcases hf : (List.range' (s + 1) (blocks.length - (s + 1))).find?
      (fun j => match blocks[j]? with
        | some b => pyStrip b.text == ""
        | none => false) with _ | j
  · rw [hf]
  · exfalso
    have hmem := List.mem_of_find?_eq_some hf
    have hpred := List.find?_some hf
    have hj : s + 1 ≤ j := by
      rw [List.mem_range'] at hmem
      obtain ⟨k, _, hk⟩ := hmem
      omega
    rcases hget : blocks[j]? with _ | b
    · rw [hget] at hpred
      simp at hpred
    · rw [hget] at hpred
      simp only [beq_iff_eq] at hpred
      exact h j (by omega) b hget hpred

/-- A successful locate returns a `start` that indexes an actual block. -/
theorem locate_ok_start_lt (blocks : List Block) (s e : Nat)
    (h : locate blocks = .ok (s, e)) : s < blocks.length := by
  rcases hscan : scanLoop blocks 0 false none with ⟨f, st, en⟩
  rw [locate, hscan] at h
  cases f
  · simp at h
  · cases st with
    | none => simp at h
    | some s0 =>
      have hrange := scanLoop_start_range blocks 0 false true s0 en hscan
      cases en with
      | none =>
        simp only [Except.ok.injEq, Prod.mk.injEq] at h
        omega
      | some e0 =>
        simp only [Except.ok.injEq, Prod.mk.injEq] at h
        omega

/-! ## Lemmas about bullet normalisation -/

theorem isEmpty_false_of_ne_nil {α : Type} {l : List α} (h : l ≠ []) :
    l.isEmpty = false := by
  cases l with
  | nil => exact absurd rfl h
  | cons x xs => rfl

/-- Splitting at the first newline of a newline-free prefix. -/
theorem splitLinesCh_append (a b : List Char) (h : ¬ '\n' ∈ a) :
    splitLinesCh (a ++ '\n' :: b) = a :: splitLinesCh b := by
  induction a with
  | nil => simp [splitLinesCh]
  | cons c a ih =>
    have hc : ¬ c = '\n' := fun hq => h (by simp [hq])
    have ha : ¬ '\n' ∈ a := fun hq => h (by simp [hq])
    rw [List.cons_append]
    simp only [splitLinesCh, if_neg hc, ih ha]

/-- A newline-free text is a single line. -/
theorem splitLinesCh_no_newline (a : List Char) (h : ¬ '\n' ∈ a) :
    splitLinesCh a = [a] := by
  induction a with
  | nil => rfl
  | cons c a ih =>
    have hc : ¬ c = '\n' := fun hq => h (by simp [hq])
    have ha : ¬ '\n' ∈ a := fun hq => h (by simp [hq])
    simp only [splitLinesCh, if_neg hc, ih ha]

theorem cleanLineCh_nil : cleanLineCh [] = [] := rfl

/-- `clean_bullets` never produces more than 3 entries. -/
theorem clean_bullets_length_le_three (raw : String) :
    (clean_bullets raw).length ≤ 3 := by
  rw [clean_bullets]
  split
  · simp
  · simp only [List.length_map, List.length_take]
    omega

/-- The bullet filter of line 127 keeps every bullet whose stripped text
is non-empty. -/
theorem cleanNewBullets_length (bl : List String)
    (h : ∀ b ∈ bl, pyStrip b ≠ "") :
    (cleanNewBullets bl).length = bl.length := by
  induction bl with
  | nil => rfl
  | cons a l ih =>
    have ha : pyStrip a ≠ "" := h a (by simp)
    have ha2 : ¬ a = "" := by
      intro hq
      exact ha (by rw [hq]; rfl)
    simp only [cleanNewBullets, List.filterMap_cons] at ih ⊢
    rw [if_neg ha2, if_neg ha]
    simp only [List.length_cons]
    rw [ih fun b hb => h b (by simp [hb])]

/-! ## Claims -/

/-- C8 (amended): for raw text of 5 newline-free lines, each starting with
the bullet glyph and each still non-empty once the glyph, hyphens,
enumerator and whitespace are stripped, `clean_bullets` returns exactly
the cleaned first 3 lines in their original order; and for any raw text
whatsoever it never returns more than 3 entries.  (The original claim
omitted the non-emptiness-after-stripping condition: a line consisting of
the glyph alone is dropped, see `C8_counterexample`.) -/
theorem C8_truncation_amended (l1 l2 l3 l4 l5 : String)
    (w1 : ¬ '\n' ∈ l1.data) (w2 : ¬ '\n' ∈ l2.data) (w3 : ¬ '\n' ∈ l3.data)
    (w4 : ¬ '\n' ∈ l4.data) (w5 : ¬ '\n' ∈ l5.data)
    (g1 : l1.data.head? = some '•') (g2 : l2.data.head? = some '•')
    (g3 : l3.data.head? = some '•') (g4 : l4.data.head? = some '•')
    (g5 : l5.data.head? = some '•')
    (n1 : cleanLineCh (trimCh l1.data) ≠ []) (n2 : cleanLineCh (trimCh l2.data) ≠ [])
    (n3 : cleanLineCh (trimCh l3.data) ≠ []) (n4 : cleanLineCh (trimCh l4.data) ≠ [])
    (n5 : cleanLineCh (trimCh l5.data) ≠ []) :
    clean_bullets (l1 ++ "\n" ++ l2 ++ "\n" ++ l3 ++ "\n" ++ l4 ++ "\n" ++ l5)
      = [cleanedLine l1, cleanedLine l2, cleanedLine l3]
    ∧ ∀ raw, (clean_bullets raw).length ≤ 3 := by
  refine ⟨?_, clean_bullets_length_le_three⟩
  have hdata : (l1 ++ "\n" ++ l2 ++ "\n" ++ l3 ++ "\n" ++ l4 ++ "\n" ++ l5).data
      = l1.data ++ '\n' :: (l2.data ++ '\n' :: (l3.data ++ '\n' ::
          (l4.data ++ '\n' :: l5.data))) := by
    simp [String.data_append]
  have hne : ¬ (l1 ++ "\n" ++ l2 ++ "\n" ++ l3 ++ "\n" ++ l4 ++ "\n" ++ l5) = "" := by
    intro hq
    have hq2 : (l1 ++ "\n" ++ l2 ++ "\n" ++ l3 ++ "\n" ++ l4 ++ "\n" ++ l5).data
        = [] := by rw [hq]
    rw [hdata] at hq2
    simp at hq2
  have hti : ∀ (l : List Char), cleanLineCh (trimCh l) ≠ [] → (trimCh l).isEmpty = false := by
    intro l hn
    refine isEmpty_false_of_ne_nil fun hq => hn ?_
    rw [hq]
    exact cleanLineCh_nil
  have e1 := hti l1.data n1
  have e2 := hti l2.data n2
  have e3 := hti l3.data n3
  have e4 := hti l4.data n4
  have e5 := hti l5.data n5
  have c1 := isEmpty_false_of_ne_nil n1
  have c2 := isEmpty_false_of_ne_nil n2
  have c3 := isEmpty_false_of_ne_nil n3
  have c4 := isEmpty_false_of_ne_nil n4
  have c5 := isEmpty_false_of_ne_nil n5
  rw [clean_bullets, if_neg hne, hdata, splitLinesCh_append _ _ w1,
    splitLinesCh_append _ _ w2, splitLinesCh_append _ _ w3,
    splitLinesCh_append _ _ w4, splitLinesCh_no_newline _ w5]
  simp [e1, e2, e3, e4, e5, c1, c2, c3, c4, c5, cleanedLine]

/-- C8 counterexample to the claim as stated: 5 non-empty lines, each
consisting of exactly the bullet glyph, are all dropped — the result has
0 entries, not 3. -/
theorem C8_counterexample :
    splitLinesCh ("•\n•\n•\n•\n•").data = [['•'], ['•'], ['•'], ['•'], ['•']]
    ∧ (∀ l ∈ splitLinesCh ("•\n•\n•\n•\n•").data, l ≠ [] ∧ l.head? = some '•')
    ∧ clean_bullets ("•\n•\n•\n•\n•") = []
    ∧ (clean_bullets ("•\n•\n•\n•\n•")).length ≠ 3 := by decide

/-- Witness for C8 at a concrete 5-line input. -/
theorem C8_witness :
    clean_bullets ("• alpha" ++ "\n" ++ "• beta" ++ "\n" ++ "• gamma" ++ "\n"
        ++ "• delta" ++ "\n" ++ "• epsilon")
      = [cleanedLine ("• alpha"), cleanedLine ("• beta"), cleanedLine ("• gamma")]
    ∧ ∀ raw, (clean_bullets raw).length ≤ 3 :=
  C8_truncation_amended ("• alpha") ("• beta") ("• gamma") ("• delta") ("• epsilon")
    (by decide) (by decide) (by decide) (by decide) (by decide)
    (by decide) (by decide) (by decide) (by decide) (by decide)
    (by decide) (by decide) (by decide) (by decide) (by decide)

/-- C9 (confirmed): when cleanup leaves fewer than 2 usable bullets, the
pipeline substitutes the fixed 2-entry fallback list verbatim, so the
rewriter is never given zero bullets. -/
theorem C9_fallback (raw : String)
    (h : (clean_bullets raw).length < 2) :
    bulletPipeline raw = fallbackBullets
    ∧ fallbackBullets.length = 2
    ∧ bulletPipeline raw ≠ [] := by
  have h1 : bulletPipeline raw = fallbackBullets := by
    simp only [bulletPipeline]
    rw [if_pos h]
    rfl
  refine ⟨h1, rfl, ?_⟩
  rw [h1]
  simp [fallbackBullets]

/-- Witness for C9 at the empty raw text. -/
theorem C9_witness :
    (clean_bullets ("")).length < 2
    ∧ (bulletPipeline ("") = fallbackBullets
        ∧ fallbackBullets.length = 2
        ∧ bulletPipeline ("") ≠ []) :=
  ⟨by decide, C9_fallback ("") (by decide)⟩

/-- C1 (amended): for every block sequence, every range with
`0 ≤ start ≤ end < len(blocks)`, and every bullet list whose entries all
have non-empty stripped text, the rewrite phase returns a sequence of
length `len(blocks) - (end - start) + 1 + len(bullets)`.  (The original
claim allowed `end = len(blocks)`, where insertion raises instead of
returning, and bullet lists with blank entries, which line 127 drops —
see `C1_counterexample`.) -/
theorem C1_rewrite_length_amended (blocks : List Block) (s e : Nat)
    (t : String) (bl : List String) (h1 : s ≤ e) (h2 : e < blocks.length)
    (h3 : ∀ b ∈ bl, pyStrip b ≠ "") :
    ∃ out, rewriteOp blocks s e t bl = some out
      ∧ out.length = blocks.length - (e - s) + 1 + bl.length := by
  refine ⟨_, rewriteOp_eq blocks s e t bl h1 h2, ?_⟩
  have hcl : (cleanNewBullets bl).length = bl.length := cleanNewBullets_length bl h3
  simp only [List.length_append, List.length_cons, List.length_map,
    List.length_take, List.length_drop, hcl]
  omega

/-- C1 counterexample to the claim as stated: a valid range with
`end = len(blocks)` makes the insertion index out of range (no sequence
is returned at all), and a bullet list with a blank entry produces one
block fewer than `1 + len(bullets)`. -/
theorem C1_counterexample :
    rewriteOp [plainBlock ("A")] 0 1 ("T") [] = none
    ∧ (rewriteOp [plainBlock ("A"), plainBlock ("B")] 0 1 ("T")
        [("x"), (" ")]).map List.length = some 3
    ∧ 3 ≠ [plainBlock ("A"), plainBlock ("B")].length - (1 - 0) + 1
        + [("x" : String), (" ")].length := by decide

/-- Witness for C1 at a concrete in-bounds rewrite. -/
theorem C1_witness :
    ∃ out, rewriteOp [plainBlock ("H"), boldBlock ("X"), plainBlock ("Y")] 1 2
        ("T") [("a"), ("b")] = some out
      ∧ out.length = [plainBlock ("H"), boldBlock ("X"), plainBlock ("Y")].length
          - (2 - 1) + 1 + [("a" : String), ("b")].length :=
  C1_rewrite_length_amended _ 1 2 _ _ (by decide) (by decide) (by decide)

/-- C2 (amended): for every valid range with `end < len(blocks)`, the
rewrite phase keeps every block outside `[start, end)` unmodified and in
its original relative order, and exactly `1 + len(new_bullets)` freshly
constructed blocks (the formatted title, then the cleaned bullets, with
`new_bullets` the cleaned list of line 127) occupy the position the old
record spanned.  (The original claim also covered `end = len(blocks)`,
where insertion raises after the deletion — see `C2_counterexample`.) -/
theorem C2_rewrite_blocks_amended (blocks : List Block) (s e : Nat)
    (t : String) (bl : List String) (h1 : s ≤ e) (h2 : e < blocks.length) :
    rewriteOp blocks s e t bl
      = some (blocks.take s
          ++ (mkTitleBlock t :: (cleanNewBullets bl).map mkBulletBlock)
          ++ blocks.drop e)
    ∧ (mkTitleBlock t :: (cleanNewBullets bl).map mkBulletBlock).length
        = 1 + (cleanNewBullets bl).length := by
  constructor
  · rw [rewriteOp_eq blocks s e t bl h1 h2]
    simp
  · simp only [List.length_cons, List.length_map]
    omega

/-- C2 counterexample to the claim as stated: for the valid range
`[1, 2)` of a 2-block document (`end = len`), rewrite raises after the
deletion — the blocks outside the range survive but zero fresh blocks
occupy the old record's position. -/
theorem C2_counterexample :
    rewriteOp [plainBlock ("P"), plainBlock ("Q")] 1 2 ("T") [("x")] = none
    ∧ docAfterRewrite [plainBlock ("P"), plainBlock ("Q")] 1 2 ("T") [("x")]
        = [plainBlock ("P")] := by decide

/-- Witness for C2 at a concrete in-bounds rewrite. -/
theorem C2_witness :
    rewriteOp [plainBlock ("H"), boldBlock ("T0"), boldBlock ("N")] 1 2
        ("NEW") [("b1")]
      = some ([plainBlock ("H"), boldBlock ("T0"), boldBlock ("N")].take 1
          ++ (mkTitleBlock ("NEW")
              :: (cleanNewBullets [("b1")]).map mkBulletBlock)
          ++ [plainBlock ("H"), boldBlock ("T0"), boldBlock ("N")].drop 2)
    ∧ (mkTitleBlock ("NEW") :: (cleanNewBullets [("b1")]).map mkBulletBlock).length
        = 1 + (cleanNewBullets [("b1")]).length :=
  C2_rewrite_blocks_amended _ 1 2 _ _ (by decide) (by decide)

/-- C7 (confirmed): when the located record extends to the end of the
block sequence (`end = len(blocks)`), the rewrite phase fails with an
out-of-range insertion index, after the old record's blocks have already
been deleted and before any replacement block is inserted: the document
is left as the shorter prefix `blocks.take start`. -/
theorem C7_end_of_document_insertion_fails (blocks : List Block) (s e : Nat)
    (t : String) (bl : List String)
    (hloc : locate blocks = .ok (s, e)) (he : e = blocks.length) :
    rewriteOp blocks s e t bl = none
    ∧ docAfterRewrite blocks s e t bl = blocks.take s
    ∧ (blocks.take s).length < blocks.length := by
  have hs : s < blocks.length := locate_ok_start_lt blocks s e hloc
  subst he
  have hdel : deleteRange blocks s blocks.length = blocks.take s := by
    rw [deleteRange_eq blocks s blocks.length (by omega) (Nat.le_refl _)]
    simp
  have hlen : (blocks.take s).length = s := List.length_take_of_le (by omega)
  have hnone : rewriteOp blocks s blocks.length t bl = none := by
    rw [rewriteOp, hdel]
    exact insertRecord_none _ s t _ (by omega)
  refine ⟨hnone, ?_, by omega⟩
  simp [docAfterRewrite, hnone, hdel]

/-- Witness for C7: a document whose first record runs to the end. -/
theorem C7_witness :
    rewriteOp [plainBlock ("PROJECT EXPERIENCE"), plainBlock ("TITLE"),
        plainBlock ("• x")] 1 3 ("T") [("b")] = none
    ∧ docAfterRewrite [plainBlock ("PROJECT EXPERIENCE"), plainBlock ("TITLE"),
        plainBlock ("• x")] 1 3 ("T") [("b")]
      = [plainBlock ("PROJECT EXPERIENCE"), plainBlock ("TITLE"),
          plainBlock ("• x")].take 1
    ∧ ([plainBlock ("PROJECT EXPERIENCE"), plainBlock ("TITLE"),
          plainBlock ("• x")].take 1).length
        < [plainBlock ("PROJECT EXPERIENCE"), plainBlock ("TITLE"),
            plainBlock ("• x")].length :=
  C7_end_of_document_insertion_fails _ 1 3 _ _ (by decide) (by decide)

/-- C10 (amended): the rewrite phase performs no range validation at all —
a call violating the precondition with `end ≤ start` and
`start < len(blocks)` does not fail with any error: it deletes nothing and
silently inserts the new record at `start`.  (The claimed `InvalidRange`
error does not exist in the code — see `C10_counterexample`.) -/
theorem C10_no_invalid_range_check_amended (blocks : List Block) (s e : Nat)
    (t : String) (bl : List String) (h1 : e ≤ s) (h2 : s < blocks.length) :
    rewriteOp blocks s e t bl
      = some (blocks.take s ++ mkTitleBlock t ::
          ((cleanNewBullets bl).map mkBulletBlock ++ blocks.drop s)) := by
  have hdel : deleteRange blocks s e = blocks := by
    rw [deleteRange]
    have hz : e - s = 0 := by omega
    rw [hz]
    rfl
  rw [rewriteOp, hdel, insertRecord_eq blocks s t _ h2]

/-- C10 counterexample to the claim as stated: a call with
`start = 2 > 1 = end` violates the precondition yet fails with no error
of any kind — it returns a rewritten sequence. -/
theorem C10_counterexample :
    ¬ ((2 : Nat) ≤ 1)
    ∧ rewriteOp [plainBlock ("A"), plainBlock ("B"), plainBlock ("C")] 2 1
        ("T") [("x")]
      = some [plainBlock ("A"), plainBlock ("B"), mkTitleBlock ("T"),
          mkBulletBlock ("x"), plainBlock ("C")] :=
  ⟨by decide, by rfl⟩

/-- C3 (confirmed): the end-to-end scenario.  On
`["PROJECT EXPERIENCE", "OLD TITLE"(bold), "• old bullet 1",
"• old bullet 2", "NEXT SECTION"(bold)]`, locate returns `(1, 4)` and the
rewrite with title `"NEW TITLE"` and bullets `["Did X", "Did Y"]` yields
the 5-block sequence `["PROJECT EXPERIENCE", "NEW TITLE"(bold),
"• Did X", "• Did Y", "NEXT SECTION"(bold)]`. -/
theorem C3_end_to_end :
    locate [plainBlock ("PROJECT EXPERIENCE"), boldBlock ("OLD TITLE"),
        plainBlock ("• old bullet 1"), plainBlock ("• old bullet 2"),
        boldBlock ("NEXT SECTION")] = .ok (1, 4)
    ∧ rewriteOp [plainBlock ("PROJECT EXPERIENCE"), boldBlock ("OLD TITLE"),
        plainBlock ("• old bullet 1"), plainBlock ("• old bullet 2"),
        boldBlock ("NEXT SECTION")] 1 4 ("NEW TITLE") [("Did X"), ("Did Y")]
      = some [plainBlock ("PROJECT EXPERIENCE"), mkTitleBlock ("NEW TITLE"),
          mkBulletBlock ("Did X"), mkBulletBlock ("Did Y"),
          boldBlock ("NEXT SECTION")]
    ∧ [plainBlock ("PROJECT EXPERIENCE"), mkTitleBlock ("NEW TITLE"),
        mkBulletBlock ("Did X"), mkBulletBlock ("Did Y"),
        boldBlock ("NEXT SECTION")].map Block.text
      = [("PROJECT EXPERIENCE"), ("NEW TITLE"), ("• Did X"), ("• Did Y"),
          ("NEXT SECTION")]
    ∧ [plainBlock ("PROJECT EXPERIENCE"), mkTitleBlock ("NEW TITLE"),
        mkBulletBlock ("Did X"), mkBulletBlock ("Did Y"),
        boldBlock ("NEXT SECTION")].map hasBoldFirstRun
      = [false, true, false, false, true]
    ∧ [plainBlock ("PROJECT EXPERIENCE"), mkTitleBlock ("NEW TITLE"),
        mkBulletBlock ("Did X"), mkBulletBlock ("Did Y"),
        boldBlock ("NEXT SECTION")].length = 5 :=
  ⟨by decide, by rfl, by decide, by rfl, by rfl⟩

/-- C4 (confirmed): when no block's text contains the heading phrase
(case-insensitively), locate fails with `SectionNotFound`, whose message
names the missing phrase, and the document comes through unmodified. -/
theorem C4_section_not_found (blocks : List Block)
    (h : ∀ b ∈ blocks, headingIn b = false) :
    locate blocks = .error .sectionNotFound
    ∧ (∃ p q, LocateError.message .sectionNotFound
        = p ++ ("PROJECT EXPERIENCE") ++ q)
    ∧ ∀ t bl, docAfter blocks t bl = blocks := by
  have hscan : scanLoop blocks 0 false none = (false, none, none) :=
    scanLoop_noHeading blocks 0 none h
  have hloc : locate blocks = .error .sectionNotFound := by
    rw [locate, hscan]
  refine ⟨hloc,
    ⟨("Could not find '"), ("' section in the document."), by decide⟩, ?_⟩
  intro t bl
  rw [docAfter, hloc]

/-- Witness for C4: a document with no heading block. -/
theorem C4_witness :
    locate [plainBlock ("hello"), boldBlock ("world")] = .error .sectionNotFound
    ∧ (∃ p q, LocateError.message .sectionNotFound
        = p ++ ("PROJECT EXPERIENCE") ++ q)
    ∧ ∀ t bl, docAfter [plainBlock ("hello"), boldBlock ("world")] t bl
        = [plainBlock ("hello"), boldBlock ("world")] :=
  C4_section_not_found _ (by decide)

/-- C5 (confirmed): when the heading is present (first at some block) but
every following block has empty stripped text, locate fails with
`RecordNotFound`, an error kind — and message — distinct from
`SectionNotFound`. -/
theorem C5_record_not_found (pre post : List Block) (bh : Block)
    (h1 : headingIn bh = true)
    (h2 : ∀ b ∈ pre, headingIn b = false)
    (h3 : ∀ b ∈ post, pyStrip b.text = "") :
    locate (pre ++ bh :: post) = .error .recordNotFound
    ∧ LocateError.recordNotFound ≠ LocateError.sectionNotFound
    ∧ LocateError.message .recordNotFound ≠ LocateError.message .sectionNotFound := by
  have hpre : scanLoop pre 0 false none = (false, none, none) :=
    scanLoop_noHeading pre 0 none h2
  have happ : scanLoop (pre ++ bh :: post) 0 false none
      = scanLoop (bh :: post) (0 + pre.length) false none :=
    scanLoop_append_of_no_break pre (bh :: post) 0 false none false none hpre
  have hstep : scanLoop (bh :: post) (0 + pre.length) false none
      = scanLoop post (0 + pre.length + 1) true none := by
    simp only [scanLoop]
    rw [if_pos h1]
  have hpost : scanLoop post (0 + pre.length + 1) true none = (true, none, none) :=
    scanLoop_allBlank post _ h3
  have hscan : scanLoop (pre ++ bh :: post) 0 false none = (true, none, none) := by
    rw [happ, hstep, hpost]
  exact ⟨by rw [locate, hscan], by decide, by decide⟩

/-- Witness for C5: a heading followed only by a whitespace block. -/
theorem C5_witness :
    locate [plainBlock ("PROJECT EXPERIENCE"), plainBlock ("   ")]
      = .error .recordNotFound
    ∧ LocateError.recordNotFound ≠ LocateError.sectionNotFound
    ∧ LocateError.message .recordNotFound ≠ LocateError.message .sectionNotFound :=
  C5_record_not_found [] [plainBlock ("   ")] (plainBlock ("PROJECT EXPERIENCE"))
    (by decide) (by decide) (by decide)

/-- C6 (amended): when locate succeeds at `(start, end)` and no block
after `start` is a boundary marker (bold first run) *and no block after
`start` has empty stripped text*, then `end = len(blocks)`.  (The
original claim omitted the blank-block condition: without it the fallback
of lines 155–162 stops at the first blank block, see
`C6_counterexample`.) -/
theorem C6_end_fallback_amended (blocks : List Block) (s e : Nat)
    (hloc : locate blocks = .ok (s, e))
    (hnb : ∀ b ∈ blocks.drop (s + 1), hasBoldFirstRun b = false)
    (hne : ∀ b ∈ blocks.drop (s + 1), pyStrip b.text ≠ "") :
    e = blocks.length := by
  have hmem : ∀ j, s < j → ∀ b : Block, blocks[j]? = some b
      → b ∈ blocks.drop (s + 1) := by
    intro j hj b hget
    have hj' : (s + 1) + (j - (s + 1)) = j := by omega
    have hdget : (blocks.drop (s + 1))[j - (s + 1)]? = some b := by
      rw [List.getElem?_drop, hj']
      exact hget
    exact List.getElem?_mem hdget
  have hne' : ∀ j, s < j → ∀ b : Block, blocks[j]? = some b
      → pyStrip b.text ≠ "" :=
    fun j hj b hget => hne b (hmem j hj b hget)
  rcases hscan : scanLoop blocks 0 false none with ⟨f, st, en⟩
  rw [locate, hscan] at hloc
  cases f
  · simp at hloc
  · cases st with
    | none => simp at hloc
    | some s0 =>
      cases en with
      | some e0 =>
        exfalso
        simp only [Except.ok.injEq, Prod.mk.injEq] at hloc
        obtain ⟨hs0, _⟩ := hloc
        obtain ⟨_, ⟨b, hget, hbold⟩, hstart⟩ :=
          scanLoop_break blocks 0 false none true (some s0) e0 hscan
        obtain ⟨s1, hs1, hlt⟩ := hstart rfl
        have hs01 : s0 = s1 := by injection hs1
        have hget' : blocks[e0]? = some b := by
          have : e0 - 0 = e0 := by omega
          rw [this] at hget
          exact hget
        have hfalse : hasBoldFirstRun b = false :=
          hnb b (hmem e0 (by omega) b hget')
        rw [hfalse] at hbold
        exact Bool.false_ne_true hbold
      | none =>
        simp only [Except.ok.injEq, Prod.mk.injEq] at hloc
        obtain ⟨hs0, he0⟩ := hloc
        subst hs0
        rw [← he0]
        exact fallbackEnd_eq_length blocks s0 hne'

/-- C6 counterexample to the claim as stated: heading exactly once,
a non-empty first record block, no boundary marker anywhere — yet locate
returns `end = 2` (the first blank block), not the sequence length 4. -/
theorem C6_counterexample :
    locate [plainBlock ("PROJECT EXPERIENCE"), plainBlock ("TITLE"),
        plainBlock (""), plainBlock ("x")] = .ok (1, 2)
    ∧ (∀ b ∈ [plainBlock ("PROJECT EXPERIENCE"), plainBlock ("TITLE"),
        plainBlock (""), plainBlock ("x")], hasBoldFirstRun b = false)
    ∧ (2 : Nat) ≠ [plainBlock ("PROJECT EXPERIENCE"), plainBlock ("TITLE"),
        plainBlock (""), plainBlock ("x")].length := by decide

/-- Witness for C6: the spec's no-boundary-marker scenario
`["PROJECT EXPERIENCE", "TITLE", "• b1"]`, where `end = 3 = len`. -/
theorem C6_witness :
    locate [plainBlock ("PROJECT EXPERIENCE"), plainBlock ("TITLE"),
        plainBlock ("• b1")] = .ok (1, 3)
    ∧ (3 : Nat) = [plainBlock ("PROJECT EXPERIENCE"), plainBlock ("TITLE"),
        plainBlock ("• b1")].length :=
  ⟨by decide, C6_end_fallback_amended _ 1 3 (by decide) (by decide) (by decide)⟩

/-- Witness for C10 at a concrete inverted range. -/
theorem C10_witness :
    rewriteOp [plainBlock ("A"), plainBlock ("B"), plainBlock ("C")] 2 1
        ("T") [("x")]
      = some ([plainBlock ("A"), plainBlock ("B"), plainBlock ("C")].take 2
          ++ mkTitleBlock ("T") :: ((cleanNewBullets [("x")]).map mkBulletBlock
            ++ [plainBlock ("A"), plainBlock ("B"), plainBlock ("C")].drop 2)) :=
  C10_no_invalid_range_check_amended _ 2 1 _ _ (by decide) (by decide)

end Resume
